/-
  A verification development for the WTF thread-parking substrate
  (Source/WTF/wtf/ParkingLot.cpp, Lock.h, WordLock.h).

  The embedding is shallow and sequential: each parking-lot operation runs
  its whole bucket-lock critical section atomically, which is exactly what
  the bucket WordLock guarantees in the source (the rehash-race retry loop
  never fires in a sequential execution and is therefore not modelled).
  Intrusive queues are modelled twice: once at the pointer level (explicit
  queueHead/queueTail fields and a nextInQueue heap, mirroring the loop of
  Bucket::genericDequeue statement by statement) and once at the list
  level; a bridge theorem proves the two agree, so the list level is a
  sound view of the code.  The address hash (WTF::PtrHash, defined outside
  this repository slice) is an arbitrary function parameter throughout:
  every property proved here holds for any hash function.
-/
import Mathlib

set_option maxHeartbeats 1000000

namespace WTF

/-- Result returned by a genericDequeue functor (ParkingLot.cpp, DequeueResult). -/
inductive DequeueResult where
  | Ignore
  | RemoveAndContinue
  | RemoveAndStop
deriving DecidableEq, Repr

/-- Model of struct ThreadData (ParkingLot.cpp).  Addresses are opaque
machine words, modelled as Nat; `address = none` models a null pointer.
The parkingLock/parkingCondition pair is represented by the `shouldPark`
flag it protects; `nextInQueue` lives in the pointer-level queue model. -/
structure ThreadData where
  threadIdentifier : Nat
  shouldPark : Bool
  address : Option Nat
deriving DecidableEq, Repr

/-- Model of struct Hashtable (ParkingLot.cpp): a spine of bucket slots.
A slot holding `none` is a null bucket pointer; a materialized bucket is
its queue, in FIFO order (head first). -/
structure Hashtable where
  size : Nat
  data : List (Option (List ThreadData))
deriving DecidableEq, Repr

/-- Reading a spine slot (out of range reads behave as a null slot). -/
def Hashtable.bucketAt (h : Hashtable) (i : Nat) : Option (List ThreadData) :=
  h.data.getD i none

/-- All records queued anywhere in the spine, in slot order. -/
def Hashtable.records (h : Hashtable) : List ThreadData :=
  (h.data.map (fun o => o.getD [])).flatten

/-! ### List-level semantics of Bucket::genericDequeue

`gdKeep f q` is the queue left behind and `gdRemove f q` the removed
records in removal order, when the functor `f` drives the dequeue loop of
ParkingLot.cpp lines 89-155.  The bridge theorem `genericDequeue_spec`
below proves that the pointer-level translation of that loop computes
exactly these two lists. -/

def gdKeep (f : α → DequeueResult) : List α → List α
  | [] => []
  | x :: xs =>
    match f x with
    | .Ignore => x :: gdKeep f xs
    | .RemoveAndContinue => gdKeep f xs
    | .RemoveAndStop => xs

def gdRemove (f : α → DequeueResult) : List α → List α
  | [] => []
  | x :: xs =>
    match f x with
    | .Ignore => gdRemove f xs
    | .RemoveAndContinue => x :: gdRemove f xs
    | .RemoveAndStop => [x]

/-- The functor of ParkingLot::unparkOne (lines 541-548): remove and stop at
the first record whose address equals the unparked address. -/
def fOne (a : Nat) (e : ThreadData) : DequeueResult :=
  if e.address = some a then .RemoveAndStop else .Ignore

/-- The functor of ParkingLot::unparkAll (lines 570-579): remove every
record whose address equals the unparked address. -/
def fAll (a : Nat) (e : ThreadData) : DequeueResult :=
  if e.address = some a then .RemoveAndContinue else .Ignore

/-- The match predicate, as a Bool, used to state filter facts. -/
def matchA (a : Nat) (e : ThreadData) : Bool :=
  decide (e.address = some a)

/-! ### Pointer-level model of the bucket queue

ParkingLot.cpp works on an intrusive singly linked list through
ThreadData::nextInQueue, with explicit queueHead/queueTail fields.  Nodes
are identified by Nat identities; `next` is the heap of nextInQueue
fields. -/

/-- Pointer-level state of a Bucket: the queueHead and queueTail fields
and the nextInQueue field of every node. -/
structure BucketSt where
  next : Nat → Option Nat
  queueHead : Option Nat
  queueTail : Option Nat

/-- The induction variable `currentPtr` of Bucket::genericDequeue is a
pointer to a pointer: either `&queueHead` or `&(node p)->nextInQueue`. -/
inductive Loc where
  | head
  | nextOf (p : Nat)
deriving DecidableEq

/-- Dereference a pointer-to-pointer (`*currentPtr`). -/
def getLoc (s : BucketSt) : Loc → Option Nat
  | .head => s.queueHead
  | .nextOf p => s.next p

/-- Assign through a pointer-to-pointer (`*currentPtr = v`). -/
def setLoc (s : BucketSt) : Loc → Option Nat → BucketSt
  | .head, v => { s with queueHead := v }
  | .nextOf p, v => { s with next := Function.update s.next p v }

/-- Pointer-level Bucket::enqueue (ParkingLot.cpp lines 72-87): append at
queueTail, or install as the sole element when the queue is empty. -/
def Bucket.enqueue (s : BucketSt) (d : Nat) : BucketSt :=
  match s.queueTail with
  | some t =>
    { s with next := Function.update s.next t (some d), queueTail := some d }
  | none => { s with queueHead := some d, queueTail := some d }

/-- The removal statements of Bucket::genericDequeue (lines 144-147), in
source order: `if (current == queueTail) queueTail = previous;` then
`*currentPtr = current->nextInQueue;` then `current->nextInQueue = nullptr;`. -/
def removeNode (s : BucketSt) (cur : Loc) (prev : Option Nat) (current : Nat) :
    BucketSt :=
  let s1 := if s.queueTail = some current then { s with queueTail := prev } else s
  let s2 := setLoc s1 cur (s1.next current)
  { s2 with next := Function.update s2.next current none }

/-- Pointer-level Bucket::genericDequeue (ParkingLot.cpp lines 89-155),
statement by statement: `cur` is currentPtr, `prev` is previous, `acc`
accumulates the removed nodes in removal order.  Fuel bounds the loop;
under well-formedness `length + 1` fuel always suffices. -/
def Bucket.genericDequeueAux (f : Nat → DequeueResult) :
    Nat → Loc → Option Nat → BucketSt → List Nat → BucketSt × List Nat
  | 0, _, _, s, acc => (s, acc)
  | fuel + 1, cur, prev, s, acc =>
    match getLoc s cur with
    | none => (s, acc)
    | some current =>
      match f current with
      | .Ignore =>
        Bucket.genericDequeueAux f fuel (.nextOf current) (some current) s acc
      | .RemoveAndContinue =>
        Bucket.genericDequeueAux f fuel cur prev
          (removeNode s cur prev current) (acc ++ [current])
      | .RemoveAndStop => (removeNode s cur prev current, acc ++ [current])

/-- Entry point of the loop: currentPtr = &queueHead, previous = nullptr. -/
def Bucket.genericDequeue (f : Nat → DequeueResult) (fuel : Nat)
    (s : BucketSt) : BucketSt × List Nat :=
  Bucket.genericDequeueAux f fuel .head none s []

/-- `chainFrom next h L e` says: starting from the pointer value `h`, the
nextInQueue links visit exactly the nodes of `L` in order, and the link
out of the last node is `e`. -/
def chainFrom (next : Nat → Option Nat) : Option Nat → List Nat → Option Nat → Bool
  | h, [], e => h == e
  | h, x :: xs, e => h == some x && chainFrom next (next x) xs e

/-- Bucket well-formedness: queueHead reaches exactly the nodes of `L`
(ending in null), queueTail is the last of them, and nodes are distinct. -/
def BucketWF (s : BucketSt) (L : List Nat) : Prop :=
  chainFrom s.next s.queueHead L none = true ∧
  s.queueTail = L.getLast? ∧ L.Nodup

instance (s : BucketSt) (L : List Nat) : Decidable (BucketWF s L) := by
  unfold BucketWF; infer_instance

/-- The pointer-to-pointer that holds the link out of the already-visited
prefix `K`: `&queueHead` when nothing has been visited, else the next
field of the last visited node. -/
def curLoc (K : List Nat) : Loc :=
  match K.getLast? with
  | none => .head
  | some p => .nextOf p

/-! ### The ParkingLot operations (list level)

These are the anonymous-namespace helpers `enqueue`/`dequeue` and the
public ParkingLot operations of ParkingLot.cpp, specialised to a
sequential execution (the bucket lock and the rehash-race re-check do not
interleave with anything).  `hash` abstracts WTF::PtrHash. -/

/-- The `dequeue` template helper (lines 447-494).  Returns the boolean
result (`!!bucket->queueHead` after the walk, or false when there is no
hashtable or no bucket), the updated table, and the removed records in
removal order (what the functor captured). -/
def dequeueOp (hash : Nat → Nat) (ht : Option Hashtable) (a : Nat)
    (f : ThreadData → DequeueResult) :
    Bool × Option Hashtable × List ThreadData :=
  match ht with
  | none => (false, none, [])
  | some h =>
    let index := hash a % h.size
    match h.data.getD index none with
    | none => (false, some h, [])
    | some b =>
      (!(gdKeep f b).isEmpty,
       some { h with data := h.data.set index (some (gdKeep f b)) },
       gdRemove f b)

/-- The `enqueue` template helper (lines 402-445): lock the bucket for the
address (materializing an empty bucket if the slot is null), run the
functor, and append the record it returns, if any.  The functor's outcome
is passed as `td?`. -/
def enqueueOp (hash : Nat → Nat) (h : Hashtable) (a : Nat)
    (td? : Option ThreadData) : Bool × Hashtable :=
  let index := hash a % h.size
  let b := (h.data.getD index none).getD []
  match td? with
  | some td =>
    (true, { h with data := h.data.set index (some (b ++ [td])) })
  | none => (false, { h with data := h.data.set index (some b) })

/-- ParkingLot::parkConditionally (lines 498-533), up to the condvar wait.
The functor runs under the bucket lock: when `validation` holds it sets
the caller's address and shouldPark fields and enqueues the record.  The
returned tuple is (return value, table, caller's record as enqueued,
whether the caller proceeded to block on its condition variable). -/
def ParkingLot.parkConditionally (hash : Nat → Nat) (h : Hashtable)
    (me : ThreadData) (a : Nat) (validation : Bool) :
    Bool × Hashtable × ThreadData × Bool :=
  if validation then
    let me' : ThreadData := { me with address := some a, shouldPark := true }
    let e := enqueueOp hash h a (some me')
    (true, e.2, me', true)
  else
    let e := enqueueOp hash h a none
    (false, e.2, me, false)

/-- ParkingLot::unparkOne (lines 535-562).  Returns the boolean result,
the updated table, and the signalled record (shouldPark cleared), if any. -/
def ParkingLot.unparkOne (hash : Nat → Nat) (ht : Option Hashtable) (a : Nat) :
    Bool × Option Hashtable × Option ThreadData :=
  let d := dequeueOp hash ht a (fOne a)
  match d.2.2.head? with
  | none => (false, d.2.1, none)
  | some td => (d.1, d.2.1, some { td with shouldPark := false })

/-- ParkingLot::unparkAll (lines 564-592).  Returns the updated table and
the signalled records (shouldPark cleared), in queue order. -/
def ParkingLot.unparkAll (hash : Nat → Nat) (ht : Option Hashtable) (a : Nat) :
    Option Hashtable × List ThreadData :=
  let d := dequeueOp hash ht a (fAll a)
  (d.2.1, d.2.2.map (fun td => { td with shouldPark := false }))

/-! ### Hashtable growth (ensureHashtableSize, lines 280-365) -/

/-- ParkingLot.cpp line 206. -/
def maxLoadFactor : Nat := 3

/-- ParkingLot.cpp line 208. -/
def growthFactor : Nat := 2

/-- The modulus of the 32-bit unsigned arithmetic on sizes and counts. -/
def u32 : Nat := 2 ^ 32

/-- One step of the redistribution loop (lines 324-341): find the new slot
of a drained record by hashing its (non-null) address, materialize the
bucket, and enqueue the record at its tail. -/
def rehashInsert (hash : Nat → Nat) (newSize : Nat) (h : Hashtable)
    (td : ThreadData) : Hashtable :=
  let index := hash (td.address.getD 0) % newSize
  let b := (h.data.getD index none).getD []
  { h with data := h.data.set index (some (b ++ [td])) }

/-- The redistribution of all drained records into a fresh spine of
`newSize` slots (lines 321-341).  The trailing loop of lines 347-352 only
installs drained-empty reusable buckets into still-null slots and is not
modelled: a null slot and an empty bucket behave identically. -/
def rehashRedistribute (hash : Nat → Nat) (newSize : Nat)
    (tds : List ThreadData) : Hashtable :=
  tds.foldl (rehashInsert hash newSize) ⟨newSize, List.replicate newSize none⟩

/-- The locked rehash (lines 308-364).  `drain` is the order in which the
locked buckets are drained: the source drains the bucket vector sorted by
allocation address (line 258), an order the program state does not
determine, so it is a parameter (a list of slot indices).  Returns `none`
when `RELEASE_ASSERT(newSize > oldHashtable->size)` (line 319) fails. -/
def rehashLocked (hash : Nat → Nat) (drain : List Nat) (numThreads : Nat)
    (h : Hashtable) : Option (Hashtable × Bool) :=
  let threadDatas := (drain.map (fun i => (h.bucketAt i).getD [])).flatten
  let newSize := numThreads * growthFactor % u32 * maxLoadFactor % u32
  if h.size < newSize then
    some (rehashRedistribute hash newSize threadDatas, true)
  else
    none

/-- ensureHashtableSize (lines 280-365) in a sequential execution: the
load-factor check `(double)size / (double)numThreads >= maxLoadFactor`
is exactly `maxLoadFactor * numThreads ≤ size` on these integer ranges
(both sides of the real inequality are integers far above the rounding
granularity of double).  When no hashtable exists yet, lockHashtable
(lines 218-271) first installs one of size maxLoadFactor.  The boolean
records whether a rehash was performed. -/
def ensureHashtableSize (hash : Nat → Nat) (drain : List Nat)
    (numThreads : Nat) (ht : Option Hashtable) : Option (Hashtable × Bool) :=
  match ht with
  | some h =>
    if maxLoadFactor * numThreads ≤ h.size then some (h, false)
    else rehashLocked hash drain numThreads h
  | none =>
    let h0 : Hashtable := ⟨maxLoadFactor, List.replicate maxLoadFactor (some [])⟩
    if maxLoadFactor * numThreads ≤ h0.size then some (h0, false)
    else rehashLocked hash drain numThreads h0

/-! ### The park/unpark handshake as an interleaving machine

Thread U runs `mutate` and then `unparkAll a` or `unparkOne a`; thread P
runs `parkConditionally a v` where the validate callback `v` inspects the
user state S.  Each action is one bucket-lock critical section, so an
interleaving of the two threads is a merge of their action sequences.
The state records what P validated against and what the bucket held at
the moment U's unpark acquired the bucket lock. -/

structure HandshakeSt where
  s : Bool
  ht : Hashtable
  me : ThreadData
  pSlept : Bool
  pWoken : Bool
  pValidated : Option Bool
  pResult : Option Bool
  queueAtUnpark : Option (List ThreadData)

inductive HandshakeAct where
  | mutate
  | unpark
  | park
deriving DecidableEq

/-- Which ParkingLot operation thread U uses to wake P. -/
inductive UnparkKind where
  | one
  | all
deriving DecidableEq

/-- One atomic action of the handshake machine.  `unpark` runs the real
unparkOne or unparkAll model according to `k`; `park` runs the real
parkConditionally model with the validate callback applied to the
current user state. -/
def handshakeStep (hash : Nat → Nat) (a : Nat) (v : Bool → Bool)
    (k : UnparkKind) (st : HandshakeSt) : HandshakeAct → HandshakeSt
  | .mutate => { st with s := true }
  | .unpark =>
    let queueNow := (st.ht.bucketAt (hash a % st.ht.size)).getD []
    match k with
    | .all =>
      let r := ParkingLot.unparkAll hash (some st.ht) a
      let woken := r.2.any (fun td => td.threadIdentifier == st.me.threadIdentifier)
      { st with
          ht := r.1.getD st.ht
          pWoken := st.pWoken || woken
          me := if woken then { st.me with shouldPark := false } else st.me
          queueAtUnpark := some queueNow }
    | .one =>
      let r := ParkingLot.unparkOne hash (some st.ht) a
      let woken := match r.2.2 with
        | some td => td.threadIdentifier == st.me.threadIdentifier
        | none => false
      { st with
          ht := r.2.1.getD st.ht
          pWoken := st.pWoken || woken
          me := if woken then { st.me with shouldPark := false } else st.me
          queueAtUnpark := some queueNow }
  | .park =>
    let r := ParkingLot.parkConditionally hash st.ht st.me a (v st.s)
    { st with
        ht := r.2.1
        me := r.2.2.1
        pSlept := r.2.2.2
        pValidated := some st.s
        pResult := some r.1 }

/-- Initial handshake state: S not yet mutated, P not yet parked. -/
def handshakeInit (ht : Hashtable) (tid : Nat) : HandshakeSt :=
  ⟨false, ht, ⟨tid, false, none⟩, false, false, none, none, none⟩

/-- The three merges of U's [mutate, unpark] with P's [park]. -/
def handshakeTraces : List (List HandshakeAct) :=
  [[.park, .mutate, .unpark], [.mutate, .park, .unpark], [.mutate, .unpark, .park]]

def handshakeRun (hash : Nat → Nat) (a : Nat) (v : Bool → Bool)
    (k : UnparkKind) (ht : Hashtable) (tid : Nat) (t : List HandshakeAct) :
    HandshakeSt :=
  t.foldl (handshakeStep hash a v k) (handshakeInit ht tid)

/-! ### The one-byte Lock (Lock.h) -/

namespace LockBase

/-- Lock.h line 76. -/
def isHeldBit : Nat := 1

/-- Lock.h line 77. -/
def hasParkedBit : Nat := 2

/-- Atomic<uint8_t>::compareExchangeWeak: may fail spuriously even when
the value matches, which the `spurious` flag makes explicit.  Returns
(whether the exchange happened, the byte afterwards). -/
def casWeak (current expected desired : Nat) (spurious : Bool) : Bool × Nat :=
  if current = expected ∧ spurious = false then (true, desired)
  else (false, current)

/-- LockBase::unlock (Lock.h lines 55-63): CAS the byte from isHeldBit to
0; on failure call unlockSlow.  Returns (the byte after the fast path,
whether unlockSlow was invoked). -/
def unlock (byte : Nat) (spurious : Bool) : Nat × Bool :=
  let c := casWeak byte isHeldBit 0 spurious
  if c.1 then (c.2, false) else (byte, true)

end LockBase

/-! ## Theorems -/

/-! ### Functor-specific facts about the list-level dequeue -/

theorem gdRemove_fAll (a : Nat) : ∀ q : List ThreadData,
    gdRemove (fAll a) q = q.filter (matchA a) := by
  intro q
  induction q with
  | nil => rfl
  | cons x xs ih =>
    by_cases hx : x.address = some a <;>
      simp [gdRemove, fAll, matchA, hx, List.filter_cons, ih]

theorem gdKeep_fAll (a : Nat) : ∀ q : List ThreadData,
    gdKeep (fAll a) q = q.filter (fun e => !(matchA a e)) := by
  intro q
  induction q with
  | nil => rfl
  | cons x xs ih =>
    by_cases hx : x.address = some a <;>
      simp [gdKeep, fAll, matchA, hx, List.filter_cons, ih]

theorem gdRemove_fOne (a : Nat) : ∀ q : List ThreadData,
    gdRemove (fOne a) q = (q.filter (matchA a)).take 1 := by
  intro q
  induction q with
  | nil => rfl
  | cons x xs ih =>
    by_cases hx : x.address = some a <;>
      simp [gdRemove, fOne, matchA, hx, List.filter_cons, ih]

theorem gdKeep_fOne_filter (a : Nat) : ∀ q : List ThreadData,
    (gdKeep (fOne a) q).filter (matchA a) = (q.filter (matchA a)).tail := by
  intro q
  induction q with
  | nil => rfl
  | cons x xs ih =>
    by_cases hx : x.address = some a <;>
      simp [gdKeep, fOne, matchA, hx, List.filter_cons, ih]

theorem gdKeep_fOne_nomatch (a : Nat) : ∀ q : List ThreadData,
    q.filter (matchA a) = [] → gdKeep (fOne a) q = q := by
  intro q
  induction q with
  | nil => intro; rfl
  | cons x xs ih =>
    intro hq
    by_cases hx : x.address = some a
    · simp [List.filter_cons, matchA, hx] at hq
    · have hxm : matchA a x = false := by simp [matchA, hx]
      rw [List.filter_cons, hxm, if_neg (show ¬(false = true) by decide)] at hq
      simp [gdKeep, fOne, hx, ih hq]

theorem gdKeep_sublist (f : α → DequeueResult) :
    ∀ q : List α, (gdKeep f q).Sublist q := by
  intro q
  induction q with
  | nil => simp [gdKeep]
  | cons x xs ih =>
    cases hfx : f x with
    | Ignore => simpa [gdKeep, hfx] using ih.cons₂ x
    | RemoveAndContinue => simpa [gdKeep, hfx] using ih.cons x
    | RemoveAndStop => simp [gdKeep, hfx]

/-! ### Small list helpers (index update and access) -/

theorem getD_set_self {α : Type} (d : α) :
    ∀ (l : List α) (i : Nat) (x : α), i < l.length →
      (l.set i x).getD i d = x := by
  intro l
  induction l with
  | nil => intro i x h; simp at h
  | cons y ys ih =>
    intro i x h
    cases i with
    | zero => rfl
    | succ j =>
      simp only [List.set, List.getD, List.getElem?_cons_succ]
      have := ih j x (by simpa using Nat.lt_of_succ_lt_succ h)
      simpa [List.getD] using this

theorem getD_set_ne {α : Type} (d : α) :
    ∀ (l : List α) (i j : Nat) (x : α), i ≠ j →
      (l.set i x).getD j d = l.getD j d := by
  intro l
  induction l with
  | nil => intro i j x _; simp [List.set]
  | cons y ys ih =>
    intro i j x hij
    cases i with
    | zero =>
      cases j with
      | zero => exact absurd rfl hij
      | succ k => simp [List.set, List.getD]
    | succ i' =>
      cases j with
      | zero => simp [List.set, List.getD]
      | succ k =>
        simp only [List.set, List.getD, List.getElem?_cons_succ]
        have := ih i' k x (fun h => hij (by rw [h]))
        simpa [List.getD] using this

theorem getD_some_lt {α : Type} :
    ∀ (l : List (Option α)) (i : Nat) (b : α),
      l.getD i none = some b → i < l.length := by
  intro l i b h
  by_contra hlt
  rw [List.getD_eq_default] at h
  · exact Option.noConfusion h
  · omega

/-! ### Chain infrastructure for the pointer-level bucket -/

theorem chainFrom_append (next : Nat → Option Nat) :
    ∀ (K R : List Nat) (h e : Option Nat),
      chainFrom next h (K ++ R) e = true ↔
        ∃ m, chainFrom next h K m = true ∧ chainFrom next m R e = true := by
  intro K
  induction K with
  | nil =>
    intro R h e
    constructor
    · intro hc; exact ⟨h, by simp [chainFrom], hc⟩
    · rintro ⟨m, hm, hc⟩
      simp [chainFrom] at hm
      rw [hm]; exact hc
  | cons k ks ih =>
    intro R h e
    simp only [List.cons_append, chainFrom, Bool.and_eq_true, beq_iff_eq]
    constructor
    · rintro ⟨rfl, hc⟩
      obtain ⟨m, h1, h2⟩ := (ih R (next k) e).mp hc
      exact ⟨m, ⟨rfl, h1⟩, h2⟩
    · rintro ⟨m, ⟨rfl, h1⟩, h2⟩
      exact ⟨rfl, (ih R (next k) e).mpr ⟨m, h1, h2⟩⟩

theorem chainFrom_frame (next next' : Nat → Option Nat) :
    ∀ (L : List Nat) (h e : Option Nat),
      (∀ x ∈ L, next' x = next x) →
      chainFrom next h L e = true → chainFrom next' h L e = true := by
  intro L
  induction L with
  | nil => intro h e _ hc; simpa [chainFrom] using hc
  | cons x xs ih =>
    intro h e hagree hc
    simp only [chainFrom, Bool.and_eq_true, beq_iff_eq] at hc ⊢
    obtain ⟨rfl, hc⟩ := hc
    refine ⟨rfl, ?_⟩
    rw [hagree x (by simp)]
    exact ih (next x) e (fun y hy => hagree y (by simp [hy])) hc

theorem getLast?_eq_some_mem {α : Type} :
    ∀ (L : List α) (a : α), L.getLast? = some a → a ∈ L := by
  intro L a h
  obtain ⟨hne, heq⟩ := List.mem_getLast?_eq_getLast (show a ∈ L.getLast? from h)
  rw [heq]
  exact List.getLast_mem hne

theorem curLoc_nil : curLoc [] = Loc.head := rfl

theorem curLoc_concat (K : List Nat) (p : Nat) :
    curLoc (K ++ [p]) = Loc.nextOf p := by
  simp [curLoc, List.getLast?_concat]

/-- Effect of the three removal statements of genericDequeue on a
well-formed traversal state: the visited prefix `K` keeps its chain, the
current pointer now holds the removed node's successor, the removed
node's nextInQueue is null, and queueTail is correct for the shrunk
queue. -/
theorem removeStep (s : BucketSt) (K R' : List Nat) (x : Nat)
    (inv1 : chainFrom s.next s.queueHead K (getLoc s (curLoc K)) = true)
    (hcv : getLoc s (curLoc K) = some x)
    (inv2 : chainFrom s.next (some x) (x :: R') none = true)
    (htail : s.queueTail = (K ++ x :: R').getLast?)
    (hnd : (K ++ x :: R').Nodup) :
    chainFrom (removeNode s (curLoc K) K.getLast? x).next
        (removeNode s (curLoc K) K.getLast? x).queueHead K
        (getLoc (removeNode s (curLoc K) K.getLast? x) (curLoc K)) = true ∧
    getLoc (removeNode s (curLoc K) K.getLast? x) (curLoc K) = s.next x ∧
    chainFrom (removeNode s (curLoc K) K.getLast? x).next (s.next x) R' none = true ∧
    (removeNode s (curLoc K) K.getLast? x).queueTail = (K ++ R').getLast? ∧
    (removeNode s (curLoc K) K.getLast? x).next x = none ∧
    (∀ y, y ∉ K → y ≠ x → (removeNode s (curLoc K) K.getLast? x).next y = s.next y) := by
  rw [List.nodup_append] at hnd
  obtain ⟨hndK, hndxR, hdisj⟩ := hnd
  have hxK : x ∉ K := fun hx => hdisj hx (by simp)
  have hxR : x ∉ R' := by
    rw [List.nodup_cons] at hndxR
    exact hndxR.1
  have hRK : ∀ y ∈ R', y ∉ K := fun y hy hyK => hdisj hyK (by simp [hy])
  have hchR : chainFrom s.next (s.next x) R' none = true := by
    rw [chainFrom] at inv2
    simp only [Bool.and_eq_true, beq_iff_eq] at inv2
    exact inv2.2
  have hcond : (s.queueTail = some x) ↔ R' = [] := by
    rw [htail, List.getLast?_append_cons]
    cases R' with
    | nil => simp
    | cons r rs =>
      rw [List.getLast?_cons_cons]
      constructor
      · intro h
        exact absurd (getLast?_eq_some_mem _ _ h) hxR
      · intro h
        exact absurd h (by simp)
  rcases List.eq_nil_or_concat K with rfl | ⟨K₀, p, rfl⟩
  · -- currentPtr is &queueHead
    have hrm : removeNode s (curLoc []) [].getLast? x =
        { (if s.queueTail = some x then { s with queueTail := none } else s) with
            queueHead := s.next x,
            next := Function.update s.next x none } := by
      by_cases hqt : s.queueTail = some x <;>
        simp [removeNode, curLoc_nil, setLoc, hqt]
    rw [hrm]
    refine ⟨?_, ?_, ?_, ?_, ?_, ?_⟩
    · by_cases hqt : s.queueTail = some x <;> simp [hqt, getLoc, curLoc_nil, chainFrom]
    · by_cases hqt : s.queueTail = some x <;> simp [hqt, getLoc, curLoc_nil]
    · refine chainFrom_frame s.next _ R' (s.next x) none ?_ hchR
      intro y hy
      by_cases hqt : s.queueTail = some x <;>
        simp [hqt, Function.update_noteq (show y ≠ x from fun h => hxR (h ▸ hy))]
    · by_cases hqt : s.queueTail = some x
      · have hR : R' = [] := hcond.mp hqt
        simp [hqt, hR]
      · have hR : R' ≠ [] := fun h => hqt (hcond.mpr h)
        rw [if_neg hqt]
        show s.queueTail = ([] ++ R').getLast?
        rw [htail]
        simp only [List.nil_append]
        cases R' with
        | nil => exact absurd rfl hR
        | cons r rs => rw [List.getLast?_cons_cons]
    · by_cases hqt : s.queueTail = some x <;> simp [hqt]
    · intro y _ hyx
      by_cases hqt : s.queueTail = some x <;> simp [hqt, Function.update_noteq hyx]
  · -- currentPtr is &(last visited node)->nextInQueue
    simp only [List.concat_eq_append] at inv1 hcv htail hndK hdisj hxK hRK ⊢
    have hpx : p ≠ x := fun h => hxK (by simp [h])
    have hpK : p ∉ K₀ := by
      rw [List.nodup_append] at hndK
      exact fun hp => hndK.2.2 hp (by simp)
    have hloc : curLoc (K₀ ++ [p]) = Loc.nextOf p := curLoc_concat K₀ p
    have hlast : (K₀ ++ [p]).getLast? = some p := List.getLast?_concat _
    have hrm : removeNode s (curLoc (K₀ ++ [p])) (K₀ ++ [p]).getLast? x =
        { (if s.queueTail = some x then { s with queueTail := some p } else s) with
            next := Function.update (Function.update s.next p (s.next x)) x none } := by
      by_cases hqt : s.queueTail = some x <;>
        simp [removeNode, hloc, hlast, setLoc, hqt]
    have hnx : Function.update (Function.update s.next p (s.next x)) x none p
        = s.next x := by
      rw [Function.update_noteq hpx, Function.update_same]
    rw [hrm]
    have hframe : ∀ y, y ≠ x → y ≠ p →
        Function.update (Function.update s.next p (s.next x)) x none y = s.next y := by
      intro y hyx hyp
      rw [Function.update_noteq hyx, Function.update_noteq hyp]
    refine ⟨?_, ?_, ?_, ?_, ?_, ?_⟩
    · -- chain through K₀ ++ [p] still holds, now ending at s.next x
      have hsplit := (chainFrom_append s.next K₀ [p] s.queueHead
        (getLoc s (curLoc (K₀ ++ [p])))).mp inv1
      obtain ⟨m, c1, c2⟩ := hsplit
      rw [chainFrom, chainFrom] at c2
      simp only [Bool.and_eq_true, beq_iff_eq] at c2
      have hm : m = some p := c2.1
      subst hm
      have c1' : chainFrom (Function.update (Function.update s.next p (s.next x)) x none)
          s.queueHead K₀ (some p) = true := by
        refine chainFrom_frame s.next _ K₀ s.queueHead (some p) ?_ c1
        intro y hy
        exact hframe y (fun h => hxK (by simp [h ▸ hy]))
          (fun h => hpK (h ▸ hy))
      have c2' : chainFrom (Function.update (Function.update s.next p (s.next x)) x none)
          (some p) [p] (s.next x) = true := by
        rw [chainFrom, chainFrom, hnx]
        simp
      have := (chainFrom_append _ K₀ [p] s.queueHead (s.next x)).mpr ⟨some p, c1', c2'⟩
      by_cases hqt : s.queueTail = some x <;>
        simpa [hqt, getLoc, hloc, hnx] using this
    · by_cases hqt : s.queueTail = some x <;> simp [hqt, getLoc, hloc, hnx]
    · refine chainFrom_frame s.next _ R' (s.next x) none ?_ hchR
      intro y hy
      exact hframe y (fun h => hxR (h ▸ hy)) (fun h => hRK y hy (by simp [h]))
    · by_cases hqt : s.queueTail = some x
      · have hR : R' = [] := hcond.mp hqt
        simp [hqt, hR, hlast]
      · have hR : R' ≠ [] := fun h => hqt (hcond.mpr h)
        rw [if_neg hqt]
        show s.queueTail = ((K₀ ++ [p]) ++ R').getLast?
        rw [htail, List.getLast?_append_cons]
        cases R' with
        | nil => exact absurd rfl hR
        | cons r rs =>
          rw [List.getLast?_cons_cons,
            List.getLast?_append_of_ne_nil _ (by simp : (r :: rs) ≠ [])]
    · by_cases hqt : s.queueTail = some x <;> simp [hqt]
    · intro y hyK hyx
      by_cases hqt : s.queueTail = some x <;>
        simp [hqt, hframe y hyx (fun h => hyK (by simp [h]))]

/-- Loop invariant of Bucket::genericDequeue: with `K` the visited (kept)
prefix and `R` the unvisited remainder, the loop removes exactly
`gdRemove f R`, keeps `K ++ gdKeep f R` as a well-linked chain with a
correct queueTail, and leaves every removed node's nextInQueue null. -/
theorem gdAux_invariant (f : Nat → DequeueResult) :
    ∀ (R : List Nat) (fuel : Nat) (K : List Nat) (s : BucketSt) (acc : List Nat),
      R.length < fuel →
      chainFrom s.next s.queueHead K (getLoc s (curLoc K)) = true →
      chainFrom s.next (getLoc s (curLoc K)) R none = true →
      s.queueTail = (K ++ R).getLast? →
      (K ++ R).Nodup →
      (∀ x ∈ acc, s.next x = none) →
      (∀ x ∈ acc, x ∉ K ++ R) →
      ∀ s' out,
        Bucket.genericDequeueAux f fuel (curLoc K) K.getLast? s acc = (s', out) →
        out = acc ++ gdRemove f R ∧
        chainFrom s'.next s'.queueHead (K ++ gdKeep f R) none = true ∧
        s'.queueTail = (K ++ gdKeep f R).getLast? ∧
        (∀ x ∈ out, s'.next x = none) := by
  intro R
  induction R with
  | nil =>
    intro fuel K s acc hfuel inv1 inv2 htail hnd hacc1 _ s' out heq
    have hcv : getLoc s (curLoc K) = none := by
      rw [chainFrom] at inv2
      simpa using inv2
    cases fuel with
    | zero => omega
    | succ fuel' =>
      simp only [Bucket.genericDequeueAux, hcv] at heq
      injection heq with h1 h2
      subst h1
      subst h2
      rw [hcv] at inv1
      exact ⟨by simp [gdRemove], by simpa [gdKeep] using inv1,
        by simpa [gdKeep] using htail, hacc1⟩
  | cons x R' ih =>
    intro fuel K s acc hfuel inv1 inv2 htail hnd hacc1 hacc2 s' out heq
    have hcv : getLoc s (curLoc K) = some x := by
      rw [chainFrom] at inv2
      simp only [Bool.and_eq_true, beq_iff_eq] at inv2
      exact inv2.1
    have hchR : chainFrom s.next (s.next x) R' none = true := by
      rw [chainFrom] at inv2
      simp only [Bool.and_eq_true, beq_iff_eq] at inv2
      exact inv2.2
    have hndsplit := hnd
    rw [List.nodup_append, List.nodup_cons] at hndsplit
    obtain ⟨hndK, ⟨hxR, hndR⟩, hdisj⟩ := hndsplit
    have hxK : x ∉ K := fun hx => hdisj hx (by simp)
    cases fuel with
    | zero => omega
    | succ fuel' =>
      have hfuel' : R'.length < fuel' := by
        simp only [List.length_cons] at hfuel
        omega
      simp only [Bucket.genericDequeueAux, hcv] at heq
      cases hfx : f x with
      | Ignore =>
        rw [hfx] at heq
        have inv1' : chainFrom s.next s.queueHead (K ++ [x])
            (getLoc s (curLoc (K ++ [x]))) = true := by
          rw [curLoc_concat]
          refine (chainFrom_append s.next K [x] s.queueHead
            (getLoc s (Loc.nextOf x))).mpr ⟨some x, ?_, ?_⟩
          · rw [← hcv]; exact inv1
          · simp [chainFrom, getLoc]
        have inv2' : chainFrom s.next (getLoc s (curLoc (K ++ [x]))) R' none = true := by
          rw [curLoc_concat]
          exact hchR
        have hrec := ih fuel' (K ++ [x]) s acc hfuel' inv1' inv2'
          (by simpa using htail) (by simpa using hnd)
          hacc1 (by intro y hy; simpa using hacc2 y hy) s' out
          (by rw [curLoc_concat, List.getLast?_concat]; exact heq)
        obtain ⟨ho, hc, ht, hn⟩ := hrec
        refine ⟨?_, ?_, ?_, hn⟩
        · rw [ho]; simp [gdRemove, hfx]
        · simpa [gdKeep, hfx] using hc
        · simpa [gdKeep, hfx] using ht
      | RemoveAndContinue =>
        rw [hfx] at heq
        rw [hcv] at inv2
        obtain ⟨rc, rcv, rr, rt, rx, rframe⟩ :=
          removeStep s K R' x inv1 hcv inv2 htail hnd
        have hndKR : (K ++ R').Nodup := by
          refine List.Nodup.sublist ?_ hnd
          exact (List.sublist_cons_self x R').append_left K
        have hrec := ih fuel' K (removeNode s (curLoc K) K.getLast? x)
          (acc ++ [x]) hfuel'
          rc (by rw [rcv]; exact rr) rt hndKR
          ?_ ?_ s' out heq
        · obtain ⟨ho, hc, ht, hn⟩ := hrec
          refine ⟨?_, ?_, ?_, hn⟩
          · rw [ho]; simp [gdRemove, hfx]
          · simpa [gdKeep, hfx] using hc
          · simpa [gdKeep, hfx] using ht
        · intro y hy
          rcases List.mem_append.mp hy with hy | hy
          · rw [rframe y (fun hyK => hacc2 y hy (List.mem_append.mpr (Or.inl hyK)))
              (fun hyx => hacc2 y hy (by simp [hyx]))]
            exact hacc1 y hy
          · simp only [List.mem_singleton] at hy
            subst hy
            exact rx
        · intro y hy
          rcases List.mem_append.mp hy with hy | hy
          · intro hmem
            rcases List.mem_append.mp hmem with hm | hm
            · exact hacc2 y hy (List.mem_append.mpr (Or.inl hm))
            · exact hacc2 y hy (List.mem_append.mpr (Or.inr (by simp [hm])))
          · simp only [List.mem_singleton] at hy
            subst hy
            intro hmem
            rcases List.mem_append.mp hmem with hm | hm
            · exact hxK hm
            · exact hxR hm
      | RemoveAndStop =>
        rw [hfx] at heq
        injection heq with h1 h2
        subst h1
        subst h2
        rw [hcv] at inv2
        obtain ⟨rc, rcv, rr, rt, rx, rframe⟩ :=
          removeStep s K R' x inv1 hcv inv2 htail hnd
        refine ⟨by simp [gdRemove, hfx], ?_, ?_, ?_⟩
        · simp only [gdKeep, hfx]
          refine (chainFrom_append _ K R' _ none).mpr ⟨s.next x, ?_, rr⟩
          rw [← rcv]
          exact rc
        · simpa [gdKeep, hfx] using rt
        · intro y hy
          rcases List.mem_append.mp hy with hy | hy
          · rw [rframe y (fun hyK => hacc2 y hy (List.mem_append.mpr (Or.inl hyK)))
              (fun hyx => hacc2 y hy (by simp [hyx]))]
            exact hacc1 y hy
          · simp only [List.mem_singleton] at hy
            subst hy
            exact rx

/-- Bridge theorem: on a well-formed bucket the pointer-level
genericDequeue removes exactly `gdRemove f L`, leaves exactly `gdKeep f L`
well-formed, and nulls the removed links. -/
theorem genericDequeue_spec (f : Nat → DequeueResult) (fuel : Nat) (s : BucketSt)
    (L : List Nat) (hwf : BucketWF s L) (hfuel : L.length < fuel) :
    (Bucket.genericDequeue f fuel s).2 = gdRemove f L ∧
    BucketWF (Bucket.genericDequeue f fuel s).1 (gdKeep f L) ∧
    ∀ x ∈ gdRemove f L, (Bucket.genericDequeue f fuel s).1.next x = none := by
  obtain ⟨hc, ht, hnd⟩ := hwf
  have hinv := gdAux_invariant f L fuel [] s [] hfuel
    (by simp [chainFrom, getLoc, curLoc_nil]) (by simpa [getLoc, curLoc_nil] using hc)
    (by simpa using ht) (by simpa using hnd) (by simp) (by simp)
    (Bucket.genericDequeue f fuel s).1 (Bucket.genericDequeue f fuel s).2
    rfl
  obtain ⟨ho, hcK, htK, hn⟩ := hinv
  refine ⟨by simpa using ho, ⟨by simpa using hcK, by simpa using htK, ?_⟩, ?_⟩
  · exact ((gdKeep_sublist f L).nodup hnd)
  · intro x hx
    exact hn x (by rw [ho]; simpa using hx)

/-- Bucket::enqueue preserves well-formedness, appending the new node at
the tail. -/
theorem enqueue_WF (s : BucketSt) (L : List Nat) (d : Nat)
    (hwf : BucketWF s L) (hd : s.next d = none) (hmem : d ∉ L) :
    BucketWF (Bucket.enqueue s d) (L ++ [d]) := by
  obtain ⟨hc, ht, hnd⟩ := hwf
  have hndL : (L ++ [d]).Nodup := by
    rw [List.nodup_append]
    exact ⟨hnd, List.nodup_singleton d,
      fun y hy hz => hmem (by simpa using (List.mem_singleton.mp hz) ▸ hy)⟩
  cases hqt : s.queueTail with
  | none =>
    have hL : L = [] := by
      rw [hqt] at ht
      exact List.getLast?_eq_none_iff.mp ht.symm
    subst hL
    refine ⟨?_, ?_, hndL⟩
    · simp [Bucket.enqueue, hqt, chainFrom, hd]
    · simp [Bucket.enqueue, hqt]
  | some t =>
    have hlast : L.getLast? = some t := by rw [← ht, hqt]
    obtain ⟨L₀, rfl⟩ : ∃ L₀, L = L₀ ++ [t] := by
      rcases List.eq_nil_or_concat L with rfl | ⟨L₀, p, hp⟩
      · simp at hlast
      · rw [List.concat_eq_append] at hp
        subst hp
        rw [List.getLast?_concat] at hlast
        obtain rfl : p = t := by injection hlast
        exact ⟨L₀, rfl⟩
    have hdt : d ≠ t := fun h => hmem (by simp [h])
    have hdL₀ : d ∉ L₀ := fun h => hmem (by simp [h])
    have htL₀ : t ∉ L₀ := by
      rw [List.nodup_append] at hnd
      exact fun h => hnd.2.2 h (by simp)
    obtain ⟨m, c1, c2⟩ := (chainFrom_append s.next L₀ [t] s.queueHead none).mp hc
    rw [chainFrom, chainFrom] at c2
    simp only [Bool.and_eq_true, beq_iff_eq] at c2
    obtain ⟨rfl, _⟩ := c2
    refine ⟨?_, ?_, hndL⟩
    · show chainFrom (Bucket.enqueue s d).next (Bucket.enqueue s d).queueHead _ none = true
      have hen : Bucket.enqueue s d =
          { s with next := Function.update s.next t (some d), queueTail := some d } := by
        simp [Bucket.enqueue, hqt]
      rw [hen]
      rw [List.append_assoc]
      refine (chainFrom_append _ L₀ ([t] ++ [d]) s.queueHead none).mpr
        ⟨some t, ?_, ?_⟩
      · refine chainFrom_frame s.next _ L₀ s.queueHead (some t) ?_ c1
        intro y hy
        exact Function.update_noteq (fun h => htL₀ (by rw [← h]; exact hy)) _ _
      · show chainFrom _ (some t) [t, d] none = true
        rw [chainFrom, chainFrom, chainFrom]
        simp [Function.update_same, Function.update_noteq hdt, hd]
    · simp [Bucket.enqueue, hqt, List.getLast?_concat]

/-- A well-formed bucket has a null queueHead exactly when it has a null
queueTail (the assertion at ParkingLot.cpp line 154). -/
theorem BucketWF.head_iff_tail (s : BucketSt) (L : List Nat)
    (h : BucketWF s L) : s.queueHead = none ↔ s.queueTail = none := by
  obtain ⟨hc, ht, _⟩ := h
  cases L with
  | nil =>
    rw [chainFrom] at hc
    simp only [beq_iff_eq] at hc
    simp [hc, ht]
  | cons x xs =>
    rw [chainFrom] at hc
    simp only [Bool.and_eq_true, beq_iff_eq] at hc
    rw [hc.1, ht]
    simp [List.getLast?_eq_none_iff]

theorem set_getD_id {α : Type} (d : α) :
    ∀ (l : List α) (i : Nat) (x : α), l.getD i d = x → i < l.length →
      l.set i x = l := by
  intro l
  induction l with
  | nil => intro i x _ h; simp at h
  | cons y ys ih =>
    intro i x hx h
    cases i with
    | zero =>
      have hyx : y = x := by simpa [List.getD] using hx
      simp [List.set, hyx]
    | succ j =>
      simp only [List.getD, List.getElem?_cons_succ] at hx
      simp only [List.set, List.cons.injEq, true_and]
      exact ih j x (by simpa [List.getD] using hx) (by simpa using h)

/-- Shape of ParkingLot::unparkOne when a record parked on the address is
present in the bucket: the first matching record is removed and signalled,
and the returned boolean is `!!bucket->queueHead` after the removal. -/
theorem unparkOne_found (hash : Nat → Nat) (a : Nat) (h : Hashtable)
    (q : List ThreadData) (p : ThreadData) (tl : List ThreadData)
    (hb : h.data.getD (hash a % h.size) none = some q)
    (hq : q.filter (matchA a) = p :: tl) :
    ParkingLot.unparkOne hash (some h) a =
      (!(gdKeep (fOne a) q).isEmpty,
       some { h with data := h.data.set (hash a % h.size) (some (gdKeep (fOne a) q)) },
       some { p with shouldPark := false }) ∧
    (Hashtable.mk h.size (h.data.set (hash a % h.size) (some (gdKeep (fOne a) q)))).data.getD
        (hash a % h.size) none = some (gdKeep (fOne a) q) ∧
    (gdKeep (fOne a) q).filter (matchA a) = tl := by
  have hrem : gdRemove (fOne a) q = [p] := by
    rw [gdRemove_fOne, hq]
    rfl
  refine ⟨?_, ?_, ?_⟩
  · rw [ParkingLot.unparkOne]
    simp only [dequeueOp, hb, hrem, List.head?]
  · exact getD_set_self none _ _ _ (getD_some_lt _ _ _ hb)
  · rw [gdKeep_fOne_filter, hq]
    rfl

/-- C1, counterexample: on a table whose only bucket holds exactly one
record parked on address 0, unparkOne(0) finds, removes and signals that
record (third component some), yet returns false — the claim "returns
true when a matching record is removed and signalled" fails. -/
theorem unparkOne_returns_false_despite_unpark :
    ParkingLot.unparkOne (fun n => n) (some ⟨1, [some [⟨7, true, some 0⟩]]⟩) 0 =
      (false, some ⟨1, [some []]⟩, some ⟨7, false, some 0⟩) ∧
    (ParkingLot.unparkOne (fun n => n) (some ⟨1, [some [⟨7, true, some 0⟩]]⟩) 0).1
      = false ∧
    (ParkingLot.unparkOne (fun n => n) (some ⟨1, [some [⟨7, true, some 0⟩]]⟩) 0).2.2.isSome
      = true := by
  decide

/-- C1, amended: unparkOne(a) returns false when the hashtable does not
exist, when the bucket does not exist, or when no queued record has
address a; when a matching record exists, the first one is removed and
signalled, and the returned boolean equals whether the bucket queue is
non-empty after the removal (so it can be false even though a thread was
unparked). -/
theorem unparkOne_return_value (hash : Nat → Nat) (a : Nat) :
    (ParkingLot.unparkOne hash none a = (false, none, none)) ∧
    (∀ h : Hashtable, h.data.getD (hash a % h.size) none = none →
      ParkingLot.unparkOne hash (some h) a = (false, some h, none)) ∧
    (∀ h q, h.data.getD (hash a % h.size) none = some q →
      q.filter (matchA a) = [] →
      (ParkingLot.unparkOne hash (some h) a).1 = false ∧
      (ParkingLot.unparkOne hash (some h) a).2.2 = none) ∧
    (∀ h q p tl, h.data.getD (hash a % h.size) none = some q →
      q.filter (matchA a) = p :: tl →
      (ParkingLot.unparkOne hash (some h) a).2.2 = some { p with shouldPark := false } ∧
      (ParkingLot.unparkOne hash (some h) a).1 = !(gdKeep (fOne a) q).isEmpty) := by
  refine ⟨rfl, ?_, ?_, ?_⟩
  · intro h hb
    rw [ParkingLot.unparkOne]
    simp only [dequeueOp, hb]
    rfl
  · intro h q hb hq
    have hrem : gdRemove (fOne a) q = [] := by
      rw [gdRemove_fOne, hq]
      rfl
    have he : ParkingLot.unparkOne hash (some h) a =
        (false,
         some { h with data := h.data.set (hash a % h.size) (some (gdKeep (fOne a) q)) },
         none) := by
      rw [ParkingLot.unparkOne]
      simp only [dequeueOp, hb, hrem, List.head?]
    rw [he]
    exact ⟨rfl, rfl⟩
  · intro h q p tl hb hq
    obtain ⟨he, _, _⟩ := unparkOne_found hash a h q p tl hb hq
    rw [he]
    exact ⟨rfl, rfl⟩

/-- Closed instance of unparkOne_return_value: a two-slot table, address 1
hashing to slot 1, whose bucket is [record on 1, record on 3, record on 1]. -/
theorem unparkOne_return_value_witness :
    (ParkingLot.unparkOne (fun n => n) none 1 = (false, none, none)) ∧
    (ParkingLot.unparkOne (fun n => n)
        (some ⟨2, [some [], none]⟩) 1 = (false, some ⟨2, [some [], none]⟩, none)) ∧
    ((ParkingLot.unparkOne (fun n => n)
        (some ⟨2, [some [], some [⟨5, true, some 3⟩]]⟩) 1).1 = false) ∧
    ((ParkingLot.unparkOne (fun n => n)
        (some ⟨2, [some [], some [⟨5, true, some 1⟩, ⟨6, true, some 3⟩, ⟨8, true, some 1⟩]]⟩) 1).2.2
      = some ⟨5, false, some 1⟩) := by
  refine ⟨(unparkOne_return_value (fun n => n) 1).1, ?_, ?_, ?_⟩
  · exact (unparkOne_return_value (fun n => n) 1).2.1 ⟨2, [some [], none]⟩ (by decide)
  · exact ((unparkOne_return_value (fun n => n) 1).2.2.1 ⟨2, [some [], some [⟨5, true, some 3⟩]]⟩
      [⟨5, true, some 3⟩] (by decide) (by decide)).1
  · exact ((unparkOne_return_value (fun n => n) 1).2.2.2 _
      [⟨5, true, some 1⟩, ⟨6, true, some 3⟩, ⟨8, true, some 1⟩]
      ⟨5, true, some 1⟩ [⟨8, true, some 1⟩] (by decide) (by decide)).1

/-- C2: when unparkOne(a) finds and removes a record parked on a, the
boolean it returns equals whether the bucket's queue is non-empty after
the removal — the queue left in the returned table at a's slot — and not
whether the removal succeeded. -/
theorem unparkOne_bool_queue_nonempty (hash : Nat → Nat) (a : Nat)
    (h : Hashtable) (q : List ThreadData) (p : ThreadData) (tl : List ThreadData)
    (hb : h.data.getD (hash a % h.size) none = some q)
    (hq : q.filter (matchA a) = p :: tl) :
    ∃ h', (ParkingLot.unparkOne hash (some h) a).2.1 = some h' ∧
      (ParkingLot.unparkOne hash (some h) a).2.2.isSome = true ∧
      (ParkingLot.unparkOne hash (some h) a).1 =
        !((h'.bucketAt (hash a % h.size)).getD []).isEmpty := by
  obtain ⟨he, hslot, _⟩ := unparkOne_found hash a h q p tl hb hq
  refine ⟨_, by rw [he], by rw [he]; rfl, ?_⟩
  rw [he]
  show _ = !((Hashtable.bucketAt _ _).getD []).isEmpty
  rw [Hashtable.bucketAt]
  rw [hslot]
  rfl

/-- Closed instance of unparkOne_bool_queue_nonempty: one bucket holding a
record on address 0 and one on address 2 (both hash to slot 0 of a
one-slot table); after removing the record on 0 the queue is non-empty,
and unparkOne(0) indeed returns true. -/
theorem unparkOne_bool_queue_nonempty_witness :
    ∃ h', (ParkingLot.unparkOne (fun n => n)
        (some ⟨1, [some [⟨7, true, some 0⟩, ⟨9, true, some 2⟩]]⟩) 0).2.1 = some h' ∧
      (ParkingLot.unparkOne (fun n => n)
        (some ⟨1, [some [⟨7, true, some 0⟩, ⟨9, true, some 2⟩]]⟩) 0).2.2.isSome = true ∧
      (ParkingLot.unparkOne (fun n => n)
        (some ⟨1, [some [⟨7, true, some 0⟩, ⟨9, true, some 2⟩]]⟩) 0).1 =
        !((h'.bucketAt 0).getD []).isEmpty :=
  unparkOne_bool_queue_nonempty (fun n => n) 0
    ⟨1, [some [⟨7, true, some 0⟩, ⟨9, true, some 2⟩]]⟩
    [⟨7, true, some 0⟩, ⟨9, true, some 2⟩]
    ⟨7, true, some 0⟩ [] (by decide) (by decide)

/-- C4: FIFO per address.  If the bucket for address a holds records
whose a-matching subsequence is P1, P2, P3, ... (records for other
addresses may be interleaved), three successive unparkOne(a) calls signal
P1, then P2, then P3, in that order. -/
theorem unparkOne_fifo (hash : Nat → Nat) (a : Nat) (h : Hashtable)
    (q : List ThreadData) (p1 p2 p3 : ThreadData) (rest : List ThreadData)
    (hb : h.data.getD (hash a % h.size) none = some q)
    (hq : q.filter (matchA a) = p1 :: p2 :: p3 :: rest) :
    ∃ b1 b2 b3 h1 h2 h3,
      ParkingLot.unparkOne hash (some h) a =
        (b1, some h1, some { p1 with shouldPark := false }) ∧
      ParkingLot.unparkOne hash (some h1) a =
        (b2, some h2, some { p2 with shouldPark := false }) ∧
      ParkingLot.unparkOne hash (some h2) a =
        (b3, some h3, some { p3 with shouldPark := false }) := by
  obtain ⟨he1, hs1, hf1⟩ := unparkOne_found hash a h q p1 (p2 :: p3 :: rest) hb hq
  set q1 := gdKeep (fOne a) q with hq1
  set h1 : Hashtable :=
    { h with data := h.data.set (hash a % h.size) (some q1) } with hh1
  have hsz1 : h1.size = h.size := rfl
  have hb1 : h1.data.getD (hash a % h1.size) none = some q1 := by
    rw [hsz1]
    exact hs1
  obtain ⟨he2, hs2, hf2⟩ := unparkOne_found hash a h1 q1 p2 (p3 :: rest) hb1 hf1
  set q2 := gdKeep (fOne a) q1 with hq2
  set h2 : Hashtable :=
    { h1 with data := h1.data.set (hash a % h1.size) (some q2) } with hh2
  have hsz2 : h2.size = h1.size := rfl
  have hb2 : h2.data.getD (hash a % h2.size) none = some q2 := by
    rw [hsz2]
    exact hs2
  obtain ⟨he3, _, _⟩ := unparkOne_found hash a h2 q2 p3 rest hb2 hf2
  exact ⟨_, _, _, h1, h2, _, he1, he2, he3⟩

/-- Closed instance of unparkOne_fifo: bucket [P1 on 0, Q on 2, P2 on 0,
P3 on 0] in a one-slot table; the three calls signal P1, P2, P3. -/
theorem unparkOne_fifo_witness :
    ∃ b1 b2 b3 h1 h2 h3,
      ParkingLot.unparkOne (fun n => n)
          (some ⟨1, [some [⟨1, true, some 0⟩, ⟨4, true, some 2⟩,
            ⟨2, true, some 0⟩, ⟨3, true, some 0⟩]]⟩) 0 =
        (b1, some h1, some ⟨1, false, some 0⟩) ∧
      ParkingLot.unparkOne (fun n => n) (some h1) 0 =
        (b2, some h2, some ⟨2, false, some 0⟩) ∧
      ParkingLot.unparkOne (fun n => n) (some h2) 0 =
        (b3, some h3, some ⟨3, false, some 0⟩) :=
  unparkOne_fifo (fun n => n) 0
    ⟨1, [some [⟨1, true, some 0⟩, ⟨4, true, some 2⟩, ⟨2, true, some 0⟩, ⟨3, true, some 0⟩]]⟩
    [⟨1, true, some 0⟩, ⟨4, true, some 2⟩, ⟨2, true, some 0⟩, ⟨3, true, some 0⟩]
    ⟨1, true, some 0⟩ ⟨2, true, some 0⟩ ⟨3, true, some 0⟩ []
    (by decide) (by decide)

/-- C6: unparkAll(a) removes and signals exactly the records whose
address is a (in queue order), leaves every other record in place
preserving relative order, and is a no-op when no record on a is queued:
nothing is removed, no thread is signalled, and the table is unchanged. -/
theorem unparkAll_exact (hash : Nat → Nat) (a : Nat) (h : Hashtable)
    (q : List ThreadData)
    (hb : h.data.getD (hash a % h.size) none = some q) :
    (ParkingLot.unparkAll hash (some h) a).2 =
      (q.filter (matchA a)).map (fun td => { td with shouldPark := false }) ∧
    (ParkingLot.unparkAll hash (some h) a).1 =
      some (Hashtable.mk h.size
        (h.data.set (hash a % h.size) (some (q.filter (fun e => !(matchA a e)))))) ∧
    (q.filter (matchA a) = [] →
      (ParkingLot.unparkAll hash (some h) a).2 = [] ∧
      (ParkingLot.unparkAll hash (some h) a).1 = some h) := by
  have hkeep := gdKeep_fAll a q
  have hrem := gdRemove_fAll a q
  have he : ParkingLot.unparkAll hash (some h) a =
      (some (Hashtable.mk h.size
         (h.data.set (hash a % h.size) (some (q.filter (fun e => !(matchA a e)))))),
       (q.filter (matchA a)).map (fun td => { td with shouldPark := false })) := by
    rw [ParkingLot.unparkAll]
    simp only [dequeueOp, hb, hkeep, hrem]
  refine ⟨by rw [he], by rw [he], ?_⟩
  intro hnone
  have hall : q.filter (fun e => !(matchA a e)) = q := by
    rw [List.filter_eq_self]
    intro e he'
    by_contra hne
    have hme : matchA a e = true := by
      by_contra hh
      rw [Bool.not_eq_true] at hh
      exact hne (by rw [hh]; rfl)
    exact absurd hnone (List.ne_nil_of_mem (List.mem_filter.mpr ⟨he', hme⟩))
  rw [he, hall]
  refine ⟨by rw [hnone]; rfl, ?_⟩
  have hset : h.data.set (hash a % h.size) (some q) = h.data :=
    set_getD_id none _ _ _ hb (getD_some_lt _ _ _ hb)
  simp [hset]

/-- Closed instance of unparkAll_exact: bucket [A on 0, B on 2, C on 0]
in a one-slot table, unparked on address 0; and the no-op clause applied
to an unpark on address 4 with an empty match set (same slot). -/
theorem unparkAll_exact_witness :
    ((ParkingLot.unparkAll (fun n => n)
        (some ⟨1, [some [⟨1, true, some 0⟩, ⟨4, true, some 2⟩, ⟨2, true, some 0⟩]]⟩) 0).2 =
      [⟨1, false, some 0⟩, ⟨2, false, some 0⟩]) ∧
    ((ParkingLot.unparkAll (fun n => n)
        (some ⟨1, [some [⟨1, true, some 0⟩, ⟨4, true, some 2⟩, ⟨2, true, some 0⟩]]⟩) 0).1 =
      some ⟨1, [some [⟨4, true, some 2⟩]]⟩) ∧
    ((ParkingLot.unparkAll (fun n => n)
        (some ⟨1, [some [⟨4, true, some 2⟩]]⟩) 4).2 = []) ∧
    ((ParkingLot.unparkAll (fun n => n)
        (some ⟨1, [some [⟨4, true, some 2⟩]]⟩) 4).1 =
      some ⟨1, [some [⟨4, true, some 2⟩]]⟩) := by
  have h1 := unparkAll_exact (fun n => n) 0
    ⟨1, [some [⟨1, true, some 0⟩, ⟨4, true, some 2⟩, ⟨2, true, some 0⟩]]⟩
    [⟨1, true, some 0⟩, ⟨4, true, some 2⟩, ⟨2, true, some 0⟩] (by decide)
  have h2 := unparkAll_exact (fun n => n) 4
    ⟨1, [some [⟨4, true, some 2⟩]]⟩ [⟨4, true, some 2⟩] (by decide)
  refine ⟨?_, ?_, ?_, ?_⟩
  · rw [h1.1]; decide
  · rw [h1.2.1]; decide
  · exact (h2.2.2 (by decide)).1
  · exact (h2.2.2 (by decide)).2

theorem map_getD_set_bucket :
    ∀ (l : List (Option (List ThreadData))) (i : Nat),
      (l.set i (some ((l.getD i none).getD []))).map (fun o => o.getD []) =
        l.map (fun o => o.getD []) := by
  intro l
  induction l with
  | nil => intro i; rfl
  | cons y ys ih =>
    intro i
    cases i with
    | zero => simp [List.set, List.getD]
    | succ j =>
      simp only [List.set, List.getD, List.getElem?_cons_succ, List.map_cons,
        List.cons.injEq, true_and]
      simpa [List.getD] using ih j

/-- C5: parkConditionally with a validate callback that returns false
returns false without ever blocking on the condition variable; the
caller's record keeps shouldPark = false and address = null, it is not
enqueued in any bucket, and no queued record anywhere changes. -/
theorem parkConditionally_validation_declines (hash : Nat → Nat)
    (h : Hashtable) (me : ThreadData) (a : Nat)
    (hpre1 : me.shouldPark = false) (hpre2 : me.address = none)
    (hnotin : me ∉ h.records) :
    (ParkingLot.parkConditionally hash h me a false).1 = false ∧
    (ParkingLot.parkConditionally hash h me a false).2.2.2 = false ∧
    (ParkingLot.parkConditionally hash h me a false).2.2.1 = me ∧
    (ParkingLot.parkConditionally hash h me a false).2.2.1.shouldPark = false ∧
    (ParkingLot.parkConditionally hash h me a false).2.2.1.address = none ∧
    (ParkingLot.parkConditionally hash h me a false).2.1.records = h.records ∧
    me ∉ (ParkingLot.parkConditionally hash h me a false).2.1.records := by
  have he : ParkingLot.parkConditionally hash h me a false =
      (false,
       Hashtable.mk h.size (h.data.set (hash a % h.size)
         (some ((h.data.getD (hash a % h.size) none).getD []))),
       me, false) := by
    rw [ParkingLot.parkConditionally]
    simp [enqueueOp]
  have hrec : (Hashtable.mk h.size (h.data.set (hash a % h.size)
      (some ((h.data.getD (hash a % h.size) none).getD [])))).records = h.records := by
    rw [Hashtable.records, Hashtable.records]
    rw [map_getD_set_bucket]
  rw [he]
  exact ⟨rfl, rfl, rfl, hpre1, hpre2, hrec, by rw [hrec]; exact hnotin⟩

/-- Closed instance of parkConditionally_validation_declines: a one-slot
table whose bucket holds one unrelated record; the caller declines. -/
theorem parkConditionally_validation_declines_witness :
    (ParkingLot.parkConditionally (fun n => n)
        ⟨1, [some [⟨9, true, some 0⟩]]⟩ ⟨5, false, none⟩ 0 false).1 = false ∧
    (ParkingLot.parkConditionally (fun n => n)
        ⟨1, [some [⟨9, true, some 0⟩]]⟩ ⟨5, false, none⟩ 0 false).2.2.2 = false ∧
    (ParkingLot.parkConditionally (fun n => n)
        ⟨1, [some [⟨9, true, some 0⟩]]⟩ ⟨5, false, none⟩ 0 false).2.2.1 =
      (⟨5, false, none⟩ : ThreadData) ∧
    (ParkingLot.parkConditionally (fun n => n)
        ⟨1, [some [⟨9, true, some 0⟩]]⟩ ⟨5, false, none⟩ 0 false).2.2.1.shouldPark = false ∧
    (ParkingLot.parkConditionally (fun n => n)
        ⟨1, [some [⟨9, true, some 0⟩]]⟩ ⟨5, false, none⟩ 0 false).2.2.1.address = none ∧
    (ParkingLot.parkConditionally (fun n => n)
        ⟨1, [some [⟨9, true, some 0⟩]]⟩ ⟨5, false, none⟩ 0 false).2.1.records =
      (⟨1, [some [⟨9, true, some 0⟩]]⟩ : Hashtable).records ∧
    (⟨5, false, none⟩ : ThreadData) ∉ (ParkingLot.parkConditionally (fun n => n)
        ⟨1, [some [⟨9, true, some 0⟩]]⟩ ⟨5, false, none⟩ 0 false).2.1.records :=
  parkConditionally_validation_declines (fun n => n)
    ⟨1, [some [⟨9, true, some 0⟩]]⟩ ⟨5, false, none⟩ 0
    (by decide) (by decide) (by decide)

/-- C9: the fast path of LockBase::unlock succeeds (takes no slow path)
only when the byte is exactly isHeldBit — the lock held with no thread
parked — and whenever hasParkedBit is set the fast-path CAS fails and
unlockSlow is invoked, leaving the byte unchanged. -/
theorem unlock_fast_path (byte : Nat) (spurious : Bool) :
    ((LockBase.unlock byte spurious).2 = false →
      byte = LockBase.isHeldBit ∧ (LockBase.unlock byte spurious).1 = 0) ∧
    (byte &&& LockBase.hasParkedBit ≠ 0 →
      (LockBase.unlock byte spurious).2 = true ∧
      (LockBase.unlock byte spurious).1 = byte) := by
  constructor
  · intro hfast
    by_cases hc : byte = LockBase.isHeldBit ∧ spurious = false
    · exact ⟨hc.1, by simp [LockBase.unlock, LockBase.casWeak, hc.1, hc.2]⟩
    · exfalso
      simp only [LockBase.unlock, LockBase.casWeak, if_neg hc] at hfast
      simp at hfast
  · intro hpark
    have hne : ¬(byte = LockBase.isHeldBit ∧ spurious = false) := by
      rintro ⟨hb, -⟩
      rw [hb] at hpark
      exact hpark (by decide)
    constructor <;> simp [LockBase.unlock, LockBase.casWeak, if_neg hne]

/-- Closed instance of unlock_fast_path: byte 3 (held, parked) fails the
fast path and goes slow; byte 1 (held, not parked) succeeds. -/
theorem unlock_fast_path_witness :
    ((3 : Nat) &&& LockBase.hasParkedBit ≠ 0) ∧
    ((LockBase.unlock 3 false).2 = true ∧ (LockBase.unlock 3 false).1 = 3) ∧
    (LockBase.unlock 1 false).2 = false ∧
    ((1 : Nat) = LockBase.isHeldBit ∧ (LockBase.unlock 1 false).1 = 0) :=
  ⟨by decide, (unlock_fast_path 3 false).2 (by decide), by decide,
   (unlock_fast_path 1 false).1 (by decide)⟩

theorem rehashRedistribute_size (hash : Nat → Nat) (newSize : Nat) :
    ∀ (tds : List ThreadData) (h : Hashtable),
      (tds.foldl (rehashInsert hash newSize) h).size = h.size := by
  intro tds
  induction tds with
  | nil => intro h; rfl
  | cons td tds ih =>
    intro h
    rw [List.foldl_cons, ih]
    rfl

/-- C8: hashtable growth arithmetic of ensureHashtableSize.  When the
load factor holds the spine is unchanged; when it does not, the new spine
size is numThreads * growthFactor * maxLoadFactor, strictly above the old
size (the RELEASE_ASSERT holds), and restores the load factor.  The bound
keeps the 32-bit size multiplication from wrapping; it is far above any
reachable live-thread count. -/
theorem ensureHashtableSize_growth (hash : Nat → Nat) (drain : List Nat)
    (n : Nat) (h : Hashtable) (hn : 1 ≤ n)
    (hbound : n * growthFactor * maxLoadFactor < u32) :
    (maxLoadFactor * n ≤ h.size →
      ensureHashtableSize hash drain n (some h) = some (h, false)) ∧
    (h.size < maxLoadFactor * n →
      ∃ h', ensureHashtableSize hash drain n (some h) = some (h', true) ∧
        h'.size = n * growthFactor * maxLoadFactor ∧
        h.size < h'.size ∧
        maxLoadFactor ≤ h'.size / n) := by
  have h2 : n * growthFactor < u32 := by
    refine lt_of_le_of_lt ?_ hbound
    have : 1 ≤ maxLoadFactor := by decide
    exact Nat.le_mul_of_pos_right _ (by decide)
  have hnewsize : n * growthFactor % u32 * maxLoadFactor % u32 =
      n * growthFactor * maxLoadFactor := by
    rw [Nat.mod_eq_of_lt h2, Nat.mod_eq_of_lt hbound]
  constructor
  · intro hle
    simp [ensureHashtableSize, if_pos hle]
  · intro hlt
    have hgt : h.size < n * growthFactor * maxLoadFactor := by
      refine lt_of_lt_of_le hlt ?_
      simp only [maxLoadFactor, growthFactor]
      omega
    have hrl : rehashLocked hash drain n h =
        some (rehashRedistribute hash (n * growthFactor * maxLoadFactor)
          ((drain.map (fun i => (h.bucketAt i).getD [])).flatten), true) := by
      rw [rehashLocked]
      simp only [hnewsize, if_pos hgt]
    have hens : ensureHashtableSize hash drain n (some h) =
        rehashLocked hash drain n h := by
      simp [ensureHashtableSize, if_neg (not_le.mpr hlt)]
    refine ⟨_, by rw [hens, hrl], ?_, ?_, ?_⟩
    · rw [rehashRedistribute, rehashRedistribute_size]
    · rw [rehashRedistribute, rehashRedistribute_size]
      exact hgt
    · rw [rehashRedistribute, rehashRedistribute_size]
      show maxLoadFactor ≤ n * growthFactor * maxLoadFactor / n
      rw [Nat.mul_assoc, Nat.mul_div_cancel_left _ (by omega : 0 < n)]
      simp [maxLoadFactor, growthFactor]

/-- Closed instance of ensureHashtableSize_growth: a spine of size 3 with
2 live threads keeps the load factor; with 2 threads and size 3 < 6 it
rehashes to size 12 ≥ 3 * 2. -/
theorem ensureHashtableSize_growth_witness :
    (ensureHashtableSize (fun n => n) [0] 1 (some ⟨3, [some [], some [], some []]⟩) =
      some (⟨3, [some [], some [], some []]⟩, false)) ∧
    (∃ h', ensureHashtableSize (fun n => n) [2, 1, 0]
        2 (some ⟨3, [some [], some [], some []]⟩) = some (h', true) ∧
      h'.size = 2 * growthFactor * maxLoadFactor ∧
      (3 : Nat) < h'.size ∧
      maxLoadFactor ≤ h'.size / 2) :=
  ⟨(ensureHashtableSize_growth (fun n => n) [0] 1 ⟨3, [some [], some [], some []]⟩
      (by decide) (by decide)).1 (by decide),
   (ensureHashtableSize_growth (fun n => n) [2, 1, 0] 2 ⟨3, [some [], some [], some []]⟩
      (by decide) (by decide)).2 (by decide)⟩

theorem getD_replicate_none {α : Type} :
    ∀ (m j : Nat), (List.replicate m (none : Option α)).getD j none = none := by
  intro m
  induction m with
  | zero => intro j; simp [List.getD]
  | succ m ih =>
    intro j
    cases j with
    | zero => rfl
    | succ k =>
      rw [List.replicate_succ]
      rw [show ((none :: List.replicate m (none : Option α)).getD (k + 1) none) =
          (List.replicate m (none : Option α)).getD k none from by simp [List.getD]]
      exact ih k

/-- The redistribution loop fills bucket `j` of the new spine with
exactly the drained records whose address hashes to `j`, in drained
order. -/
theorem rehashInsert_foldl_bucket (hash : Nat → Nat) (newSize : Nat)
    (_hpos : 0 < newSize) :
    ∀ (tds : List ThreadData) (h : Hashtable) (j : Nat),
      h.data.length = newSize → j < newSize →
      (((tds.foldl (rehashInsert hash newSize) h).data.getD j none).getD []) =
        (((h.data.getD j none).getD []) ++
          tds.filter (fun td => decide (hash (td.address.getD 0) % newSize = j))) := by
  intro tds
  induction tds with
  | nil => intro h j _ _; simp
  | cons td tds ih =>
    intro h j hlen hj
    rw [List.foldl_cons, List.filter_cons]
    have hlen' : (rehashInsert hash newSize h td).data.length = newSize := by
      simp [rehashInsert, hlen]
    rw [ih (rehashInsert hash newSize h td) j hlen' hj]
    by_cases hij : hash (td.address.getD 0) % newSize = j
    · have hbj : ((rehashInsert hash newSize h td).data.getD j none).getD [] =
          ((h.data.getD j none).getD []) ++ [td] := by
        rw [rehashInsert]
        simp only [hij]
        rw [getD_set_self none _ _ _ (by rw [hlen]; exact hj)]
        rfl
      rw [hbj, hij]
      simp
    · have hbj : ((rehashInsert hash newSize h td).data.getD j none) =
          (h.data.getD j none) := by
        rw [rehashInsert]
        exact getD_set_ne none _ _ _ _ hij
      rw [hbj]
      simp [hij]

theorem flatten_map_eq_single {α : Type} (F : Nat → List α) (iA : Nat)
    (hF : ∀ j, j ≠ iA → F j = []) :
    ∀ σ : List Nat, σ.count iA = 1 → (σ.map F).flatten = F iA := by
  intro σ
  induction σ with
  | nil => intro hc; simp at hc
  | cons j σ ih =>
    intro hcount
    by_cases hj : j = iA
    · subst hj
      rw [List.count_cons_self] at hcount
      have h0 : σ.count j = 0 := by omega
      have hnil : (σ.map F).flatten = [] := by
        rw [List.flatten_eq_nil_iff]
        intro x hx
        obtain ⟨k, hk, rfl⟩ := List.mem_map.mp hx
        refine hF k (fun hkj => ?_)
        subst hkj
        exact absurd hk (List.count_eq_zero.mp h0)
      simp [hnil]
    · rw [List.count_cons_of_ne (fun hh => hj hh.symm) σ] at hcount
      simp [hF j hj, ih hcount]

/-- C10: a rehash preserves per-address FIFO order.  Any two records
parked on the same address a lie in the same old bucket (the slot a
hashes to), and the new bucket for a holds exactly the old bucket's
a-records in their old relative order. -/
theorem rehash_preserves_fifo (hash : Nat → Nat) (drain : List Nat) (n : Nat)
    (h : Hashtable) (a : Nat) (hn : 1 ≤ n)
    (hbound : n * growthFactor * maxLoadFactor < u32)
    (hneed : h.size < maxLoadFactor * n)
    (hwf : ∀ i, i < h.data.length → ∀ td ∈ (h.bucketAt i).getD [],
      hash (td.address.getD 0) % h.size = i)
    (hdrain : drain.count (hash a % h.size) = 1) :
    ∃ h', ensureHashtableSize hash drain n (some h) = some (h', true) ∧
      (∀ i, ∀ td ∈ (h.bucketAt i).getD [], td.address = some a →
        i = hash a % h.size) ∧
      ((h'.bucketAt (hash a % h'.size)).getD []).filter (matchA a) =
        ((h.bucketAt (hash a % h.size)).getD []).filter (matchA a) := by
  have h2 : n * growthFactor < u32 := by
    refine lt_of_le_of_lt ?_ hbound
    exact Nat.le_mul_of_pos_right _ (by decide)
  have hnewsize : n * growthFactor % u32 * maxLoadFactor % u32 =
      n * growthFactor * maxLoadFactor := by
    rw [Nat.mod_eq_of_lt h2, Nat.mod_eq_of_lt hbound]
  set newSize := n * growthFactor * maxLoadFactor with hns
  have hpos : 0 < newSize := by
    simp only [hns, maxLoadFactor, growthFactor]
    omega
  have hgt : h.size < newSize := by
    refine lt_of_lt_of_le hneed ?_
    simp only [hns, maxLoadFactor, growthFactor]
    omega
  set tds := (drain.map (fun i => (h.bucketAt i).getD [])).flatten with htds
  have hens : ensureHashtableSize hash drain n (some h) =
      some (rehashRedistribute hash newSize tds, true) := by
    rw [ensureHashtableSize]
    rw [if_neg (not_le.mpr hneed)]
    rw [rehashLocked]
    simp only [hnewsize, ← hns, ← htds, if_pos hgt]
  -- every record on address a sits in the bucket a hashes to
  have hsame : ∀ i, ∀ td ∈ (h.bucketAt i).getD [], td.address = some a →
      i = hash a % h.size := by
    intro i td htd hta
    by_cases hi : i < h.data.length
    · have := hwf i hi td htd
      rw [hta] at this
      simpa using this.symm
    · rw [Hashtable.bucketAt, List.getD_eq_default _ _ (by omega)] at htd
      simp at htd
  refine ⟨_, hens, hsame, ?_⟩
  -- the new bucket for a holds exactly the drained a-records
  have hsz : (rehashRedistribute hash newSize tds).size = newSize := by
    rw [rehashRedistribute, rehashRedistribute_size]
  rw [hsz]
  have hbucket := rehashInsert_foldl_bucket hash newSize hpos tds
    ⟨newSize, List.replicate newSize none⟩ (hash a % newSize)
    (by simp) (Nat.mod_lt _ hpos)
  rw [Hashtable.bucketAt]
  rw [rehashRedistribute] at *
  rw [hbucket]
  rw [getD_replicate_none]
  simp only [Option.getD_none, List.nil_append]
  -- filter the slot-jA bucket down to the a-records
  rw [List.filter_filter]
  have habsorb : tds.filter
      (fun td => matchA a td &&
        decide (hash (td.address.getD 0) % newSize = hash a % newSize)) =
      tds.filter (matchA a) := by
    refine List.filter_congr ?_
    intro td _
    by_cases hta : td.address = some a
    · simp [matchA, hta]
    · simp [matchA, hta]
  rw [habsorb]
  -- a-records come only from the old bucket of a, drained exactly once
  rw [htds, List.filter_flatten, List.map_map]
  have := flatten_map_eq_single
    (fun i => ((h.bucketAt i).getD []).filter (matchA a)) (hash a % h.size)
    ?_ drain hdrain
  · simpa using this
  · intro j hj
    rw [List.filter_eq_nil_iff]
    intro td htd
    simp only [matchA, decide_eq_true_eq]
    intro hta
    exact hj (hsame j td htd hta)

/-- Closed instance of rehash_preserves_fifo: a size-3 spine with records
on addresses 0, 3, 0 in bucket 0 (all hash to slot 0) and one on address
1 in bucket 1; with 2 live threads it rehashes to size 12 and the
address-0 records keep their order. -/
theorem rehash_preserves_fifo_witness :
    ∃ h', ensureHashtableSize (fun n => n) [2, 1, 0] 2
        (some ⟨3, [some [⟨1, true, some 0⟩, ⟨9, true, some 3⟩, ⟨2, true, some 0⟩],
          some [⟨4, true, some 1⟩], some []]⟩) = some (h', true) ∧
      (∀ i, ∀ td ∈ ((Hashtable.mk 3
          [some [⟨1, true, some 0⟩, ⟨9, true, some 3⟩, ⟨2, true, some 0⟩],
           some [⟨4, true, some 1⟩], some []]).bucketAt i).getD [],
        td.address = some 0 →
        i = (fun n => n) 0 % (Hashtable.mk 3
          [some [⟨1, true, some 0⟩, ⟨9, true, some 3⟩, ⟨2, true, some 0⟩],
           some [⟨4, true, some 1⟩], some []]).size) ∧
      ((h'.bucketAt ((fun n => n) 0 % h'.size)).getD []).filter (matchA 0) =
        (((Hashtable.mk 3
          [some [⟨1, true, some 0⟩, ⟨9, true, some 3⟩, ⟨2, true, some 0⟩],
           some [⟨4, true, some 1⟩], some []]).bucketAt ((fun n => n) 0 %
            (Hashtable.mk 3
          [some [⟨1, true, some 0⟩, ⟨9, true, some 3⟩, ⟨2, true, some 0⟩],
           some [⟨4, true, some 1⟩], some []]).size)).getD []).filter (matchA 0) :=
  rehash_preserves_fifo (fun n => n) [2, 1, 0] 2
    ⟨3, [some [⟨1, true, some 0⟩, ⟨9, true, some 3⟩, ⟨2, true, some 0⟩],
      some [⟨4, true, some 1⟩], some []]⟩ 0
    (by decide) (by decide) (by decide) (by decide) (by decide)

/-- C7: every queue operation preserves bucket well-formedness.  For
enqueue and for genericDequeue with any functor (Bucket::dequeue is the
RemoveAndStop instance): queueHead is null iff queueTail is null,
queueTail is the last node reachable from queueHead (part of BucketWF),
removed nodes get a null nextInQueue, and every reachable record's
address still hashes to this bucket's slot. -/
theorem bucket_ops_preserve_invariant (hash addrOf : Nat → Nat)
    (size slot : Nat) :
    (∀ (s : BucketSt) (L : List Nat) (d : Nat),
      BucketWF s L → s.next d = none → d ∉ L →
      (∀ x ∈ L, hash (addrOf x) % size = slot) →
      hash (addrOf d) % size = slot →
      BucketWF (Bucket.enqueue s d) (L ++ [d]) ∧
      ((Bucket.enqueue s d).queueHead = none ↔
        (Bucket.enqueue s d).queueTail = none) ∧
      (∀ x ∈ L ++ [d], hash (addrOf x) % size = slot)) ∧
    (∀ (f : Nat → DequeueResult) (fuel : Nat) (s : BucketSt) (L : List Nat),
      BucketWF s L → L.length < fuel →
      (∀ x ∈ L, hash (addrOf x) % size = slot) →
      (Bucket.genericDequeue f fuel s).2 = gdRemove f L ∧
      BucketWF (Bucket.genericDequeue f fuel s).1 (gdKeep f L) ∧
      ((Bucket.genericDequeue f fuel s).1.queueHead = none ↔
        (Bucket.genericDequeue f fuel s).1.queueTail = none) ∧
      (∀ x ∈ gdRemove f L, (Bucket.genericDequeue f fuel s).1.next x = none) ∧
      (∀ x ∈ gdKeep f L, hash (addrOf x) % size = slot)) := by
  constructor
  · intro s L d hwf hd hmem hall hdnew
    have hwf' := enqueue_WF s L d hwf hd hmem
    refine ⟨hwf', BucketWF.head_iff_tail _ _ hwf', ?_⟩
    intro x hx
    rcases List.mem_append.mp hx with hx | hx
    · exact hall x hx
    · rw [List.mem_singleton.mp hx]
      exact hdnew
  · intro f fuel s L hwf hfuel hall
    obtain ⟨h1, h2, h3⟩ := genericDequeue_spec f fuel s L hwf hfuel
    exact ⟨h1, h2, BucketWF.head_iff_tail _ _ h2, h3,
      fun x hx => hall x ((gdKeep_sublist f L).subset hx)⟩

/-- Closed instance of bucket_ops_preserve_invariant: the two-node chain
0 → 1 with node 2 appended, and a dequeue that removes node 0. -/
theorem bucket_ops_preserve_invariant_witness :
    (BucketWF (Bucket.enqueue
        ⟨fun n => if n = 0 then some 1 else none, some 0, some 1⟩ 2) ([0, 1] ++ [2]) ∧
      ((Bucket.enqueue
        ⟨fun n => if n = 0 then some 1 else none, some 0, some 1⟩ 2).queueHead = none ↔
       (Bucket.enqueue
        ⟨fun n => if n = 0 then some 1 else none, some 0, some 1⟩ 2).queueTail = none) ∧
      (∀ x ∈ [0, 1] ++ [2], (fun n => n) ((fun n => n) x) % 1 = 0)) ∧
    ((Bucket.genericDequeue (fun n => if n = 0 then .RemoveAndStop else .Ignore) 3
        ⟨fun n => if n = 0 then some 1 else none, some 0, some 1⟩).2 =
      gdRemove (fun n => if n = 0 then .RemoveAndStop else .Ignore) [0, 1] ∧
     BucketWF (Bucket.genericDequeue (fun n => if n = 0 then .RemoveAndStop else .Ignore) 3
        ⟨fun n => if n = 0 then some 1 else none, some 0, some 1⟩).1
       (gdKeep (fun n => if n = 0 then .RemoveAndStop else .Ignore) [0, 1]) ∧
     ((Bucket.genericDequeue (fun n => if n = 0 then .RemoveAndStop else .Ignore) 3
        ⟨fun n => if n = 0 then some 1 else none, some 0, some 1⟩).1.queueHead = none ↔
      (Bucket.genericDequeue (fun n => if n = 0 then .RemoveAndStop else .Ignore) 3
        ⟨fun n => if n = 0 then some 1 else none, some 0, some 1⟩).1.queueTail = none) ∧
     (∀ x ∈ gdRemove (fun n => if n = 0 then .RemoveAndStop else .Ignore) [0, 1],
       (Bucket.genericDequeue (fun n => if n = 0 then .RemoveAndStop else .Ignore) 3
        ⟨fun n => if n = 0 then some 1 else none, some 0, some 1⟩).1.next x = none) ∧
     (∀ x ∈ gdKeep (fun n => if n = 0 then .RemoveAndStop else .Ignore) [0, 1],
       (fun n => n) ((fun n => n) x) % 1 = 0)) :=
  ⟨(bucket_ops_preserve_invariant (fun n => n) (fun n => n) 1 0).1
      ⟨fun n => if n = 0 then some 1 else none, some 0, some 1⟩ [0, 1] 2
      (by decide) (by decide) (by decide) (by decide) (by decide),
   (bucket_ops_preserve_invariant (fun n => n) (fun n => n) 1 0).2
      (fun n => if n = 0 then .RemoveAndStop else .Ignore) 3
      ⟨fun n => if n = 0 then some 1 else none, some 0, some 1⟩ [0, 1]
      (by decide) (by decide) (by decide)⟩

/-- C3: no lost wakeups.  Thread U runs mutate then unparkAll(a) or
unparkOne(a); thread P runs parkConditionally(a, v) where the validate
callback v inspects the user state S and U's mutation makes it fail
(v true = false, the point of the protocol).  No other thread is parked
on a when the handshake begins (the claim's two-thread scenario).  Each
bucket-lock critical section is atomic, so the interleavings are the
three merges in handshakeTraces.  In every one, for either unpark
variant, either v returned false and P never slept, or P's record was in
the bucket queue at the moment U's unpark ran and P was woken; in
particular P never both validates against the pre-mutation state and
sleeps past U's unpark. -/
theorem no_lost_wakeup (hash : Nat → Nat) (a : Nat) (v : Bool → Bool)
    (k : UnparkKind) (ht : Hashtable) (tid : Nat) (hv : v true = false)
    (hsz : ht.size = ht.data.length) (hpos : 0 < ht.size)
    (hclean : ((ht.bucketAt (hash a % ht.size)).getD []).filter (matchA a) = []) :
    ∀ t ∈ handshakeTraces,
      (((handshakeRun hash a v k ht tid t).pResult = some false ∧
        (handshakeRun hash a v k ht tid t).pSlept = false) ∨
       ((∃ td ∈ ((handshakeRun hash a v k ht tid t).queueAtUnpark).getD [],
          td.threadIdentifier = tid) ∧
        (handshakeRun hash a v k ht tid t).pWoken = true)) ∧
      ¬((handshakeRun hash a v k ht tid t).pValidated = some false ∧
        (handshakeRun hash a v k ht tid t).pSlept = true ∧
        (handshakeRun hash a v k ht tid t).pWoken = false) := by
  intro t htm
  simp only [handshakeTraces, List.mem_cons, List.mem_singleton,
    List.not_mem_nil, or_false] at htm
  rcases htm with rfl | rfl | rfl
  · -- P parks first, then U mutates and unparks
    by_cases hvf : v false = true
    · -- P validated the pre-mutation state and committed to sleep
      have hidx : hash a % ht.size < ht.data.length := by
        rw [← hsz]
        exact Nat.mod_lt _ hpos
      have hstep1 : handshakeStep hash a v k (handshakeInit ht tid) .park =
          ⟨false,
           Hashtable.mk ht.size (ht.data.set (hash a % ht.size)
             (some (((ht.data.getD (hash a % ht.size) none).getD []) ++
               [⟨tid, true, some a⟩]))),
           ⟨tid, true, some a⟩, true, false, some false, some true, none⟩ := by
        simp only [handshakeStep, handshakeInit, ParkingLot.parkConditionally,
          hvf, if_true, enqueueOp]
      have hstep2 : handshakeStep hash a v k
          (⟨false,
            Hashtable.mk ht.size (ht.data.set (hash a % ht.size)
              (some (((ht.data.getD (hash a % ht.size) none).getD []) ++
                [⟨tid, true, some a⟩]))),
            ⟨tid, true, some a⟩, true, false, some false, some true, none⟩ :
            HandshakeSt) .mutate =
          ⟨true,
           Hashtable.mk ht.size (ht.data.set (hash a % ht.size)
             (some (((ht.data.getD (hash a % ht.size) none).getD []) ++
               [⟨tid, true, some a⟩]))),
           ⟨tid, true, some a⟩, true, false, some false, some true, none⟩ := rfl
      have hbucket : (Hashtable.mk ht.size (ht.data.set (hash a % ht.size)
            (some (((ht.data.getD (hash a % ht.size) none).getD []) ++
              [⟨tid, true, some a⟩])))).data.getD (hash a % ht.size) none =
          some (((ht.data.getD (hash a % ht.size) none).getD []) ++
            [⟨tid, true, some a⟩]) :=
        getD_set_self none _ _ _ hidx
      rw [handshakeRun, List.foldl_cons, List.foldl_cons, List.foldl_cons,
        List.foldl_nil, hstep1, hstep2]
      cases k with
      | one =>
        have hb0 : ((ht.data.getD (hash a % ht.size) none).getD []).filter
            (matchA a) = [] := by
          rw [Hashtable.bucketAt] at hclean
          exact hclean
        have hfil : ((((ht.data.getD (hash a % ht.size) none).getD []) ++
            [(⟨tid, true, some a⟩ : ThreadData)]).filter (matchA a)) =
            [(⟨tid, true, some a⟩ : ThreadData)] := by
          rw [List.filter_append, hb0]
          simp [matchA]
        obtain ⟨he, -, -⟩ := unparkOne_found hash a
          (Hashtable.mk ht.size (ht.data.set (hash a % ht.size)
            (some (((ht.data.getD (hash a % ht.size) none).getD []) ++
              [⟨tid, true, some a⟩]))))
          ((((ht.data.getD (hash a % ht.size) none).getD []) ++
            [⟨tid, true, some a⟩]))
          ⟨tid, true, some a⟩ [] hbucket hfil
        constructor
        · refine Or.inr ⟨⟨⟨tid, true, some a⟩, ?_, rfl⟩, ?_⟩
          · simp only [handshakeStep, Hashtable.bucketAt]
            rw [hbucket]
            simp
          · simp only [handshakeStep]
            rw [he]
            simp
        · intro hcon
          have h2 := hcon.2.2
          simp only [handshakeStep] at h2
          rw [he] at h2
          simp at h2
      | all =>
        have hrem : (ParkingLot.unparkAll hash
            (some (Hashtable.mk ht.size (ht.data.set (hash a % ht.size)
              (some (((ht.data.getD (hash a % ht.size) none).getD []) ++
                [⟨tid, true, some a⟩]))))) a).2 =
            ((((ht.data.getD (hash a % ht.size) none).getD []) ++
              [(⟨tid, true, some a⟩ : ThreadData)]).filter (matchA a)).map
              (fun td : ThreadData => { td with shouldPark := false }) := by
          rw [ParkingLot.unparkAll]
          simp only [dequeueOp, hbucket, gdRemove_fAll]
        have hwoken : ((ParkingLot.unparkAll hash
            (some (Hashtable.mk ht.size (ht.data.set (hash a % ht.size)
              (some (((ht.data.getD (hash a % ht.size) none).getD []) ++
                [⟨tid, true, some a⟩]))))) a).2).any
              (fun td => td.threadIdentifier == tid) = true := by
          rw [hrem, List.any_eq_true]
          refine ⟨⟨tid, false, some a⟩, List.mem_map.mpr
            ⟨⟨tid, true, some a⟩, List.mem_filter.mpr
              ⟨by simp, by simp [matchA]⟩, rfl⟩, ?_⟩
          simp
        constructor
        · refine Or.inr ⟨⟨⟨tid, true, some a⟩, ?_, rfl⟩, ?_⟩
          · simp only [handshakeStep, Hashtable.bucketAt]
            rw [hbucket]
            simp
          · simp only [handshakeStep]
            rw [hwoken]
            rfl
        · intro hcon
          have h2 := hcon.2.2
          simp only [handshakeStep] at h2
          rw [hwoken] at h2
          simp at h2
    · -- v declines even on the pre-mutation state
      have hvf2 : v false = false := by
        cases hb : v false
        · rfl
        · exact absurd hb hvf
      cases k <;>
        refine ⟨Or.inl ⟨?_, ?_⟩, ?_⟩ <;>
          simp [handshakeRun, handshakeStep, handshakeInit,
            ParkingLot.parkConditionally, hvf2]
  · -- U mutates, P parks (sees the mutated state), U unparks
    cases k <;>
      refine ⟨Or.inl ⟨?_, ?_⟩, ?_⟩ <;>
        simp [handshakeRun, handshakeStep, handshakeInit,
          ParkingLot.parkConditionally, hv]
  · -- U mutates and unparks, then P parks (sees the mutated state)
    cases k <;>
      refine ⟨Or.inl ⟨?_, ?_⟩, ?_⟩ <;>
        simp [handshakeRun, handshakeStep, handshakeInit,
          ParkingLot.parkConditionally, hv]

/-- Closed instance of no_lost_wakeup, for both unpark variants: P parks
first (validate reads the unmutated state and passes), then U mutates and
unparks; the trace is the park-before-unpark merge on a one-slot table
with nobody parked on the address. -/
theorem no_lost_wakeup_witness :
    ((((handshakeRun (fun n => n) 0 (fun b => !b) .one ⟨1, [some []]⟩ 5
          [.park, .mutate, .unpark]).pResult = some false ∧
        (handshakeRun (fun n => n) 0 (fun b => !b) .one ⟨1, [some []]⟩ 5
          [.park, .mutate, .unpark]).pSlept = false) ∨
       ((∃ td ∈ ((handshakeRun (fun n => n) 0 (fun b => !b) .one ⟨1, [some []]⟩ 5
            [.park, .mutate, .unpark]).queueAtUnpark).getD [],
          td.threadIdentifier = 5) ∧
        (handshakeRun (fun n => n) 0 (fun b => !b) .one ⟨1, [some []]⟩ 5
          [.park, .mutate, .unpark]).pWoken = true)) ∧
     ¬((handshakeRun (fun n => n) 0 (fun b => !b) .one ⟨1, [some []]⟩ 5
          [.park, .mutate, .unpark]).pValidated = some false ∧
       (handshakeRun (fun n => n) 0 (fun b => !b) .one ⟨1, [some []]⟩ 5
          [.park, .mutate, .unpark]).pSlept = true ∧
       (handshakeRun (fun n => n) 0 (fun b => !b) .one ⟨1, [some []]⟩ 5
          [.park, .mutate, .unpark]).pWoken = false)) ∧
    ((((handshakeRun (fun n => n) 0 (fun b => !b) .all ⟨1, [some []]⟩ 5
          [.park, .mutate, .unpark]).pResult = some false ∧
        (handshakeRun (fun n => n) 0 (fun b => !b) .all ⟨1, [some []]⟩ 5
          [.park, .mutate, .unpark]).pSlept = false) ∨
       ((∃ td ∈ ((handshakeRun (fun n => n) 0 (fun b => !b) .all ⟨1, [some []]⟩ 5
            [.park, .mutate, .unpark]).queueAtUnpark).getD [],
          td.threadIdentifier = 5) ∧
        (handshakeRun (fun n => n) 0 (fun b => !b) .all ⟨1, [some []]⟩ 5
          [.park, .mutate, .unpark]).pWoken = true)) ∧
     ¬((handshakeRun (fun n => n) 0 (fun b => !b) .all ⟨1, [some []]⟩ 5
          [.park, .mutate, .unpark]).pValidated = some false ∧
       (handshakeRun (fun n => n) 0 (fun b => !b) .all ⟨1, [some []]⟩ 5
          [.park, .mutate, .unpark]).pSlept = true ∧
       (handshakeRun (fun n => n) 0 (fun b => !b) .all ⟨1, [some []]⟩ 5
          [.park, .mutate, .unpark]).pWoken = false)) :=
  ⟨no_lost_wakeup (fun n => n) 0 (fun b => !b) .one ⟨1, [some []]⟩ 5
      (by decide) (by decide) (by decide) (by decide)
      [.park, .mutate, .unpark] (by decide),
   no_lost_wakeup (fun n => n) 0 (fun b => !b) .all ⟨1, [some []]⟩ 5
      (by decide) (by decide) (by decide) (by decide)
      [.park, .mutate, .unpark] (by decide)⟩

end WTF
